import Mathlib

set_option linter.unusedVariables false

/-!
Shallow embedding of `src/lib/ellipse.js` (kpym/SVGPathy).

The source module implements a single value type, an ellipse centred at the
origin described by `(rx, ry, ax, epsilon)`, with two mutating operations
(`transform`, `normalise`) and one predicate (`isDegenerate`).  JavaScript
numbers are modelled by real numbers; the in-place mutation of the receiver is
modelled by state passing: each operation takes the current `Ellipse` value and
returns the updated one.  All intermediate quantities of `transform`
(`ma`, `J`, `K`, `L`, `D`, `JK`, `l1`, `l2`, the arctangent argument) and of
`normalise` (the canonicalisation of radii and angle, the scale factor `k`)
are exposed as named definitions that mirror the corresponding lines of the
source, so that theorems can speak about individual branches and denominators.
-/

namespace SVGPathy

noncomputable section

/-- Degree-to-radian conversion factor, `var torad = Math.PI / 180` (line 7). -/
def torad : ℝ := Real.pi / 180

/-- The ellipse value: radii `rx`, `ry`, x-axis angle `ax` in degrees, and the
tolerance `epsilon` used to classify near-circular / near-degenerate cases. -/
@[ext]
structure Ellipse where
  rx : ℝ
  ry : ℝ
  ax : ℝ
  epsilon : ℝ

namespace Ellipse

/-- The constructor `Ellipse(rx, ry, ax, precision)` (lines 13-21): the
tolerance is `1e-7` when no precision is given and `10^(-precision)`
otherwise. -/
def construct (rx ry ax : ℝ) : Option ℤ → Ellipse
  | none => ⟨rx, ry, ax, (10 : ℝ) ^ (-7 : ℤ)⟩
  | some p => ⟨rx, ry, ax, (10 : ℝ) ^ (-p)⟩

/-- Entry `ma[0]` of `ma = m x rotate(ax) x scale(rx,ry)` (line 38). -/
def ma0 (e : Ellipse) (m0 m1 m2 m3 : ℝ) : ℝ :=
  e.rx * (m0 * Real.cos (e.ax * torad) + m2 * Real.sin (e.ax * torad))

/-- Entry `ma[1]` (line 39). -/
def ma1 (e : Ellipse) (m0 m1 m2 m3 : ℝ) : ℝ :=
  e.rx * (m1 * Real.cos (e.ax * torad) + m3 * Real.sin (e.ax * torad))

/-- Entry `ma[2]` (line 40). -/
def ma2 (e : Ellipse) (m0 m1 m2 m3 : ℝ) : ℝ :=
  e.ry * (-m0 * Real.sin (e.ax * torad) + m2 * Real.cos (e.ax * torad))

/-- Entry `ma[3]` (line 41). -/
def ma3 (e : Ellipse) (m0 m1 m2 m3 : ℝ) : ℝ :=
  e.ry * (-m1 * Real.sin (e.ax * torad) + m3 * Real.cos (e.ax * torad))

/-- Quantity `J = ma[0]*ma[0] + ma[2]*ma[2]`, top-left entry of `ma * transpose(ma)`
(line 46). -/
def J (e : Ellipse) (m0 m1 m2 m3 : ℝ) : ℝ :=
  ma0 e m0 m1 m2 m3 * ma0 e m0 m1 m2 m3 + ma2 e m0 m1 m2 m3 * ma2 e m0 m1 m2 m3

/-- Quantity `K = ma[1]*ma[1] + ma[3]*ma[3]`, bottom-right entry of `ma * transpose(ma)`
(line 47). -/
def K (e : Ellipse) (m0 m1 m2 m3 : ℝ) : ℝ :=
  ma1 e m0 m1 m2 m3 * ma1 e m0 m1 m2 m3 + ma3 e m0 m1 m2 m3 * ma3 e m0 m1 m2 m3

/-- Quantity `L = ma[0]*ma[1] + ma[2]*ma[3]`, off-diagonal entry of `ma * transpose(ma)`
(line 73). -/
def L (e : Ellipse) (m0 m1 m2 m3 : ℝ) : ℝ :=
  ma0 e m0 m1 m2 m3 * ma1 e m0 m1 m2 m3 + ma2 e m0 m1 m2 m3 * ma3 e m0 m1 m2 m3

/-- The argument of the square root in `D` (lines 51-52). -/
def Dsq (e : Ellipse) (m0 m1 m2 m3 : ℝ) : ℝ :=
  ((ma0 e m0 m1 m2 m3 - ma3 e m0 m1 m2 m3) * (ma0 e m0 m1 m2 m3 - ma3 e m0 m1 m2 m3) +
      (ma2 e m0 m1 m2 m3 + ma1 e m0 m1 m2 m3) * (ma2 e m0 m1 m2 m3 + ma1 e m0 m1 m2 m3)) *
    ((ma0 e m0 m1 m2 m3 + ma3 e m0 m1 m2 m3) * (ma0 e m0 m1 m2 m3 + ma3 e m0 m1 m2 m3) +
      (ma2 e m0 m1 m2 m3 - ma1 e m0 m1 m2 m3) * (ma2 e m0 m1 m2 m3 - ma1 e m0 m1 m2 m3))

/-- Quantity `D`, the square root of the discriminant of the characteristic polynomial
of `ma * transpose(ma)` (lines 51-52). -/
def D (e : Ellipse) (m0 m1 m2 m3 : ℝ) : ℝ :=
  Real.sqrt (Dsq e m0 m1 m2 m3)

/-- Quantity `JK = (J + K) / 2`, the arithmetic mean of the eigenvalues (line 55). -/
def JK (e : Ellipse) (m0 m1 m2 m3 : ℝ) : ℝ :=
  (J e m0 m1 m2 m3 + K e m0 m1 m2 m3) / 2

/-- Larger eigenvalue `l1 = JK + D/2` of `ma * transpose(ma)` (line 76). -/
def l1 (e : Ellipse) (m0 m1 m2 m3 : ℝ) : ℝ :=
  JK e m0 m1 m2 m3 + D e m0 m1 m2 m3 / 2

/-- Smaller eigenvalue `l2 = JK - D/2` of `ma * transpose(ma)` (line 77). -/
def l2 (e : Ellipse) (m0 m1 m2 m3 : ℝ) : ℝ :=
  JK e m0 m1 m2 m3 - D e m0 m1 m2 m3 / 2

/-- The denominator chosen by the conditional in the angle formula
(lines 87-91): `L` when `|L| > |l1 - K|`, and `l1 - K` otherwise. -/
def angleDenom (e : Ellipse) (m0 m1 m2 m3 : ℝ) : ℝ :=
  if |L e m0 m1 m2 m3| > |l1 e m0 m1 m2 m3 - K e m0 m1 m2 m3| then
    L e m0 m1 m2 m3
  else
    l1 e m0 m1 m2 m3 - K e m0 m1 m2 m3

/-- The argument handed to `Math.atan` in the general case (lines 87-91). -/
def angleArg (e : Ellipse) (m0 m1 m2 m3 : ℝ) : ℝ :=
  if |L e m0 m1 m2 m3| > |l1 e m0 m1 m2 m3 - K e m0 m1 m2 m3| then
    (l1 e m0 m1 m2 m3 - J e m0 m1 m2 m3) / L e m0 m1 m2 m3
  else
    L e m0 m1 m2 m3 / (l1 e m0 m1 m2 m3 - K e m0 m1 m2 m3)

/-- The angle, in degrees, computed in the general case of `transform`
(lines 87-91): `atan(...) / torad`. -/
def axGeneral (e : Ellipse) (m0 m1 m2 m3 : ℝ) : ℝ :=
  Real.arctan (angleArg e m0 m1 m2 m3) / torad

/-- The branch structure of `Ellipse.prototype.transform` (lines 33-106):
near-circle (line 58), near-diagonal (line 65), the folded 90-degree case
(line 80), and the general case with the sign split on the computed angle
(lines 87-103). -/
def transform (e : Ellipse) (m0 m1 m2 m3 : ℝ) : Ellipse :=
  if D e m0 m1 m2 m3 ≤ e.epsilon then
    ⟨Real.sqrt (JK e m0 m1 m2 m3), Real.sqrt (JK e m0 m1 m2 m3), 0, e.epsilon⟩
  else if abs (D e m0 m1 m2 m3 - |J e m0 m1 m2 m3 - K e m0 m1 m2 m3|) ≤ e.epsilon then
    ⟨Real.sqrt (J e m0 m1 m2 m3), Real.sqrt (K e m0 m1 m2 m3), 0, e.epsilon⟩
  else if |L e m0 m1 m2 m3| ≤ e.epsilon ∧ |l1 e m0 m1 m2 m3 - K e m0 m1 m2 m3| ≤ e.epsilon then
    ⟨Real.sqrt (l2 e m0 m1 m2 m3), Real.sqrt (l1 e m0 m1 m2 m3), 0, e.epsilon⟩
  else if 0 ≤ axGeneral e m0 m1 m2 m3 then
    ⟨Real.sqrt (l1 e m0 m1 m2 m3), Real.sqrt (l2 e m0 m1 m2 m3),
      axGeneral e m0 m1 m2 m3, e.epsilon⟩
  else
    ⟨Real.sqrt (l2 e m0 m1 m2 m3), Real.sqrt (l1 e m0 m1 m2 m3),
      axGeneral e m0 m1 m2 m3 + 90, e.epsilon⟩

/-- Predicate `Ellipse.prototype.isDegenerate` (lines 110-112). -/
def isDegenerate (e : Ellipse) : Prop :=
  |e.rx| ≤ e.epsilon ∨ |e.ry| ≤ e.epsilon

/-- Truncation toward zero, the rounding used by the JavaScript remainder
operator `%`. -/
def trunc (x : ℝ) : ℤ :=
  if 0 ≤ x then ⌊x⌋ else ⌈x⌉

/-- The JavaScript remainder `a % b`: `a - b * trunc(a / b)`, whose sign
follows the dividend. -/
def jsMod (a b : ℝ) : ℝ :=
  a - b * (trunc (a / b) : ℝ)

/-- The angle normalisation chain of `normalise` (lines 129-130): reduce
modulo 180 into `]-180,180[`, then shift into `[0,180[`. -/
def canonAx (a : ℝ) : ℝ :=
  if jsMod a 180 < 0 then jsMod a 180 + 180 else jsMod a 180

/-- The canonicalisation part of `Ellipse.prototype.normalise` (lines 120-139):
radii made non-negative, a near-circle collapsed to an exact circle with angle
0, otherwise the angle reduced into `[0,90[` with an axis swap when needed. -/
def canonical (e : Ellipse) : Ellipse :=
  if abs (|e.rx| - |e.ry|) ≤ e.epsilon then
    ⟨(|e.rx| + |e.ry|) / 2, (|e.rx| + |e.ry|) / 2, 0, e.epsilon⟩
  else if 90 ≤ canonAx e.ax then
    ⟨|e.ry|, |e.rx|, canonAx e.ax - 90, e.epsilon⟩
  else
    ⟨|e.rx|, |e.ry|, canonAx e.ax, e.epsilon⟩

/-- Quantity `ndx = (dx * c - dy * s) / rx` (line 145), with `c = cos(ax*torad)` and
`s = sin(-ax*torad)` read off the fields of the given ellipse.  This real
division is faithful to the source only when `rx ≠ 0`: at `rx = 0` the source
produces an Infinity/NaN that real arithmetic cannot represent (Lean total
division returns 0 instead), so every theorem about the scaling step either
assumes non-degenerate radii or records the division-by-zero event itself
through `normaliseDivisionByZero`. -/
def ndx (e : Ellipse) (dx dy : ℝ) : ℝ :=
  (dx * Real.cos (e.ax * torad) - dy * Real.sin (-(e.ax * torad))) / e.rx

/-- Quantity `ndy = (dx * s + dy * c) / ry` (line 146).  As with `ndx`, the
division is faithful to the source only when `ry ≠ 0`; the degenerate case is
tracked by `normaliseDivisionByZero`, never by the value of this function. -/
def ndy (e : Ellipse) (dx dy : ℝ) : ℝ :=
  (dx * Real.sin (-(e.ax * torad)) + dy * Real.cos (e.ax * torad)) / e.ry

/-- The scale factor `k = sqrt(ndx*ndx + ndy*ndy)` (line 147) computed from the fields of an
ellipse: how far outside the ellipse the vector `(dx,dy)` lies in
normalised coordinates. -/
def kFactor (e : Ellipse) (dx dy : ℝ) : ℝ :=
  Real.sqrt (ndx e dx dy * ndx e dx dy + ndy e dx dy * ndy e dx dy)

/-- Operation `Ellipse.prototype.normalise` (lines 118-154): canonicalise, return at once
on a zero vector (`!dx && !dy`), otherwise scale both radii by `k` when
`k > 1`. -/
def normalise (e : Ellipse) (dx dy : ℝ) : Ellipse :=
  if dx = 0 ∧ dy = 0 then canonical e
  else if 1 < kFactor (canonical e) dx dy then
    ⟨(canonical e).rx * kFactor (canonical e) dx dy,
      (canonical e).ry * kFactor (canonical e) dx dy,
      (canonical e).ax, (canonical e).epsilon⟩
  else canonical e

/-- The predicate "the scaling step of `normalise` divides by zero": the
zero-vector fast path is not taken, and one of the radii dividing `ndx`/`ndy`
at lines 145-146 is zero. -/
def normaliseDivisionByZero (e : Ellipse) (dx dy : ℝ) : Prop :=
  ¬(dx = 0 ∧ dy = 0) ∧ ((canonical e).rx = 0 ∨ (canonical e).ry = 0)

/-- The general (fourth) branch of `transform` is reached: none of the
epsilon-gated early returns fires. -/
def generalBranch (e : Ellipse) (m0 m1 m2 m3 : ℝ) : Prop :=
  ¬(D e m0 m1 m2 m3 ≤ e.epsilon) ∧
    ¬(abs (D e m0 m1 m2 m3 - |J e m0 m1 m2 m3 - K e m0 m1 m2 m3|) ≤ e.epsilon) ∧
    ¬(|L e m0 m1 m2 m3| ≤ e.epsilon ∧ |l1 e m0 m1 m2 m3 - K e m0 m1 m2 m3| ≤ e.epsilon)

/-! ### Helper lemmas -/

lemma torad_pos : 0 < torad :=
  div_pos Real.pi_pos (by norm_num)

lemma torad_ne_zero : torad ≠ 0 :=
  ne_of_gt torad_pos

lemma J_nonneg (e : Ellipse) (m0 m1 m2 m3 : ℝ) : 0 ≤ J e m0 m1 m2 m3 :=
  add_nonneg (mul_self_nonneg _) (mul_self_nonneg _)

lemma K_nonneg (e : Ellipse) (m0 m1 m2 m3 : ℝ) : 0 ≤ K e m0 m1 m2 m3 :=
  add_nonneg (mul_self_nonneg _) (mul_self_nonneg _)

lemma Dsq_nonneg (e : Ellipse) (m0 m1 m2 m3 : ℝ) : 0 ≤ Dsq e m0 m1 m2 m3 :=
  mul_nonneg (add_nonneg (mul_self_nonneg _) (mul_self_nonneg _))
    (add_nonneg (mul_self_nonneg _) (mul_self_nonneg _))

lemma D_nonneg (e : Ellipse) (m0 m1 m2 m3 : ℝ) : 0 ≤ D e m0 m1 m2 m3 :=
  Real.sqrt_nonneg _

lemma Dsq_eq_sub_det (e : Ellipse) (m0 m1 m2 m3 : ℝ) :
    Dsq e m0 m1 m2 m3 =
      (J e m0 m1 m2 m3 + K e m0 m1 m2 m3) ^ 2 -
        4 * (ma0 e m0 m1 m2 m3 * ma3 e m0 m1 m2 m3 -
          ma2 e m0 m1 m2 m3 * ma1 e m0 m1 m2 m3) ^ 2 := by
  simp only [Dsq, J, K]
  ring

lemma D_le_J_add_K (e : Ellipse) (m0 m1 m2 m3 : ℝ) :
    D e m0 m1 m2 m3 ≤ J e m0 m1 m2 m3 + K e m0 m1 m2 m3 := by
  have hle : Dsq e m0 m1 m2 m3 ≤ (J e m0 m1 m2 m3 + K e m0 m1 m2 m3) ^ 2 := by
    rw [Dsq_eq_sub_det]
    nlinarith [sq_nonneg (ma0 e m0 m1 m2 m3 * ma3 e m0 m1 m2 m3 -
      ma2 e m0 m1 m2 m3 * ma1 e m0 m1 m2 m3)]
  calc D e m0 m1 m2 m3 ≤ Real.sqrt ((J e m0 m1 m2 m3 + K e m0 m1 m2 m3) ^ 2) :=
        Real.sqrt_le_sqrt hle
    _ = |J e m0 m1 m2 m3 + K e m0 m1 m2 m3| := Real.sqrt_sq_eq_abs _
    _ = J e m0 m1 m2 m3 + K e m0 m1 m2 m3 :=
        abs_of_nonneg (add_nonneg (J_nonneg e m0 m1 m2 m3) (K_nonneg e m0 m1 m2 m3))

lemma axGeneral_lt_ninety (e : Ellipse) (m0 m1 m2 m3 : ℝ) :
    axGeneral e m0 m1 m2 m3 < 90 := by
  have h90 : (90 : ℝ) * torad = Real.pi / 2 := by
    unfold torad; ring
  exact (div_lt_iff₀ torad_pos).mpr
    (h90 ▸ Real.arctan_lt_pi_div_two (angleArg e m0 m1 m2 m3))

lemma neg_ninety_lt_axGeneral (e : Ellipse) (m0 m1 m2 m3 : ℝ) :
    -90 < axGeneral e m0 m1 m2 m3 := by
  have h90 : (-90 : ℝ) * torad = -(Real.pi / 2) := by
    unfold torad; ring
  exact (lt_div_iff₀ torad_pos).mpr
    (h90 ▸ Real.neg_pi_div_two_lt_arctan (angleArg e m0 m1 m2 m3))

lemma canonical_epsilon (e : Ellipse) : (canonical e).epsilon = e.epsilon := by
  unfold canonical
  split_ifs <;> rfl

lemma jsMod_lt (a : ℝ) {b : ℝ} (hb : 0 < b) : jsMod a b < b := by
  unfold jsMod trunc
  have hba : b * (a / b) = a := by field_simp
  split_ifs with h
  · have h1 : a / b < ⌊a / b⌋ + 1 := Int.lt_floor_add_one _
    have h2 := (mul_lt_mul_left hb).mpr h1
    rw [mul_add, mul_one] at h2
    linarith
  · have h3 : a / b ≤ ⌈a / b⌉ := Int.le_ceil _
    have h4 := mul_le_mul_of_nonneg_left h3 hb.le
    linarith

lemma neg_lt_jsMod (a : ℝ) {b : ℝ} (hb : 0 < b) : -b < jsMod a b := by
  unfold jsMod trunc
  have hba : b * (a / b) = a := by field_simp
  split_ifs with h
  · have h1 : (⌊a / b⌋ : ℝ) ≤ a / b := Int.floor_le _
    have h4 := mul_le_mul_of_nonneg_left h1 hb.le
    linarith
  · have h1 : (⌈a / b⌉ : ℝ) < a / b + 1 := Int.ceil_lt_add_one _
    have h4 := (mul_lt_mul_left hb).mpr h1
    rw [mul_add, mul_one] at h4
    linarith

lemma jsMod_eq_self {a b : ℝ} (ha : 0 ≤ a) (hab : a < b) : jsMod a b = a := by
  have hb : 0 < b := lt_of_le_of_lt ha hab
  unfold jsMod trunc
  rw [if_pos (div_nonneg ha hb.le)]
  have h0 : ⌊a / b⌋ = 0 :=
    Int.floor_eq_zero_iff.mpr (Set.mem_Ico.mpr ⟨div_nonneg ha hb.le, (div_lt_one hb).mpr hab⟩)
  rw [h0]
  push_cast
  ring

lemma canonAx_nonneg (a : ℝ) : 0 ≤ canonAx a := by
  unfold canonAx
  split_ifs with h
  · have := neg_lt_jsMod a (b := 180) (by norm_num)
    linarith
  · exact le_of_not_lt h

lemma canonAx_lt (a : ℝ) : canonAx a < 180 := by
  unfold canonAx
  split_ifs with h
  · linarith
  · exact jsMod_lt a (by norm_num)

lemma canonAx_eq_self {a : ℝ} (h0 : 0 ≤ a) (h180 : a < 180) : canonAx a = a := by
  unfold canonAx
  rw [jsMod_eq_self h0 h180, if_neg (not_lt.mpr h0)]

lemma canonAx_zero : canonAx (0 : ℝ) = 0 :=
  canonAx_eq_self (le_refl 0) (by norm_num)

lemma canonical_rx_nonneg (e : Ellipse) : 0 ≤ (canonical e).rx := by
  unfold canonical
  split_ifs <;> dsimp <;> positivity

lemma canonical_ry_nonneg (e : Ellipse) : 0 ≤ (canonical e).ry := by
  unfold canonical
  split_ifs <;> dsimp <;> positivity

lemma canonical_ax_nonneg (e : Ellipse) : 0 ≤ (canonical e).ax := by
  unfold canonical
  split_ifs with h1 h2 <;> dsimp
  · norm_num
  · linarith
  · exact canonAx_nonneg e.ax

lemma canonical_ax_lt (e : Ellipse) : (canonical e).ax < 90 := by
  unfold canonical
  split_ifs with h1 h2 <;> dsimp
  · norm_num
  · linarith [canonAx_lt e.ax]
  · exact lt_of_not_le h2

lemma canonical_eq_self (f : Ellipse) (hrx : 0 ≤ f.rx) (hry : 0 ≤ f.ry)
    (hax0 : 0 ≤ f.ax) (hax90 : f.ax < 90)
    (hcirc : abs (f.rx - f.ry) ≤ f.epsilon → f.rx = f.ry ∧ f.ax = 0) :
    canonical f = f := by
  unfold canonical
  rw [abs_of_nonneg hrx, abs_of_nonneg hry]
  split_ifs with h1 h2
  · obtain ⟨hr, ha⟩ := hcirc h1
    ext <;> dsimp
    · rw [hr]; ring
    · rw [hr]; ring
    · exact ha.symm
  · rw [canonAx_eq_self hax0 (by linarith)] at h2
    linarith
  · rw [canonAx_eq_self hax0 (by linarith)]

lemma canonical_circ_cond (e : Ellipse) :
    abs ((canonical e).rx - (canonical e).ry) ≤ (canonical e).epsilon →
      (canonical e).rx = (canonical e).ry ∧ (canonical e).ax = 0 := by
  unfold canonical
  split_ifs with h1 h2 <;> dsimp <;> intro h
  · exact ⟨rfl, rfl⟩
  · rw [abs_sub_comm] at h
    exact absurd h h1
  · exact absurd h h1

lemma canonical_idem (e : Ellipse) : canonical (canonical e) = canonical e :=
  canonical_eq_self _ (canonical_rx_nonneg e) (canonical_ry_nonneg e)
    (canonical_ax_nonneg e) (canonical_ax_lt e) (canonical_circ_cond e)

lemma kFactor_nonneg (e : Ellipse) (dx dy : ℝ) : 0 ≤ kFactor e dx dy :=
  Real.sqrt_nonneg _

lemma sqrt_scale_aux (x y k : ℝ) (hk : 0 < k) :
    Real.sqrt (x / k * (x / k) + y / k * (y / k)) = Real.sqrt (x * x + y * y) / k := by
  rw [div_mul_div_comm, div_mul_div_comm, div_add_div_same,
    Real.sqrt_div (add_nonneg (mul_self_nonneg x) (mul_self_nonneg y)) (k * k),
    Real.sqrt_mul_self hk.le]

lemma kFactor_scaled (f : Ellipse) (dx dy k : ℝ) (hk : 0 < k) :
    kFactor ⟨f.rx * k, f.ry * k, f.ax, f.epsilon⟩ dx dy = kFactor f dx dy / k := by
  unfold kFactor ndx ndy
  dsimp only
  rw [show (dx * Real.cos (f.ax * torad) - dy * Real.sin (-(f.ax * torad))) / (f.rx * k) =
      (dx * Real.cos (f.ax * torad) - dy * Real.sin (-(f.ax * torad))) / f.rx / k from
      (div_div _ _ _).symm,
    show (dx * Real.sin (-(f.ax * torad)) + dy * Real.cos (f.ax * torad)) / (f.ry * k) =
      (dx * Real.sin (-(f.ax * torad)) + dy * Real.cos (f.ax * torad)) / f.ry / k from
      (div_div _ _ _).symm,
    sqrt_scale_aux _ _ _ hk]

lemma normalise_zero_vec (e : Ellipse) : normalise e 0 0 = canonical e := by
  unfold normalise
  rw [if_pos ⟨rfl, rfl⟩]

lemma normalise_cases (e : Ellipse) (dx dy : ℝ) :
    normalise e dx dy = canonical e ∨
      (1 < kFactor (canonical e) dx dy ∧
        normalise e dx dy =
          ⟨(canonical e).rx * kFactor (canonical e) dx dy,
            (canonical e).ry * kFactor (canonical e) dx dy,
            (canonical e).ax, (canonical e).epsilon⟩) := by
  unfold normalise
  split_ifs with h1 h2
  · exact Or.inl rfl
  · exact Or.inr ⟨h2, rfl⟩
  · exact Or.inl rfl

lemma normalise_cases_vec (e : Ellipse) (dx dy : ℝ) (hv : ¬(dx = 0 ∧ dy = 0)) :
    (kFactor (canonical e) dx dy ≤ 1 ∧ normalise e dx dy = canonical e) ∨
      (1 < kFactor (canonical e) dx dy ∧
        normalise e dx dy =
          ⟨(canonical e).rx * kFactor (canonical e) dx dy,
            (canonical e).ry * kFactor (canonical e) dx dy,
            (canonical e).ax, (canonical e).epsilon⟩) := by
  unfold normalise
  rw [if_neg hv]
  split_ifs with h2
  · exact Or.inr ⟨h2, rfl⟩
  · exact Or.inl ⟨le_of_not_lt h2, rfl⟩

lemma ma0_id (e : Ellipse) : ma0 e 1 0 0 1 = e.rx * Real.cos (e.ax * torad) := by
  unfold ma0; ring

lemma ma1_id (e : Ellipse) : ma1 e 1 0 0 1 = e.rx * Real.sin (e.ax * torad) := by
  unfold ma1; ring

lemma ma2_id (e : Ellipse) : ma2 e 1 0 0 1 = -(e.ry * Real.sin (e.ax * torad)) := by
  unfold ma2; ring

lemma ma3_id (e : Ellipse) : ma3 e 1 0 0 1 = e.ry * Real.cos (e.ax * torad) := by
  unfold ma3; ring

lemma Dsq_id (e : Ellipse) : Dsq e 1 0 0 1 = ((e.rx - e.ry) * (e.rx + e.ry)) ^ 2 := by
  have hcs := Real.sin_sq_add_cos_sq (e.ax * torad)
  unfold Dsq
  rw [ma0_id, ma1_id, ma2_id, ma3_id]
  linear_combination ((e.rx - e.ry) ^ 2 * (e.rx + e.ry) ^ 2 *
    (Real.sin (e.ax * torad) ^ 2 + Real.cos (e.ax * torad) ^ 2 + 1)) * hcs

lemma D_id2 (e : Ellipse) : D e 1 0 0 1 = |e.rx ^ 2 - e.ry ^ 2| := by
  rw [D, Dsq_id, Real.sqrt_sq_eq_abs]
  congr 1
  ring

lemma J_id (e : Ellipse) :
    J e 1 0 0 1 =
      e.rx ^ 2 * Real.cos (e.ax * torad) ^ 2 + e.ry ^ 2 * Real.sin (e.ax * torad) ^ 2 := by
  unfold J; rw [ma0_id, ma2_id]; ring

lemma K_id (e : Ellipse) :
    K e 1 0 0 1 =
      e.rx ^ 2 * Real.sin (e.ax * torad) ^ 2 + e.ry ^ 2 * Real.cos (e.ax * torad) ^ 2 := by
  unfold K; rw [ma1_id, ma3_id]; ring

lemma L_id (e : Ellipse) :
    L e 1 0 0 1 =
      (e.rx ^ 2 - e.ry ^ 2) * (Real.cos (e.ax * torad) * Real.sin (e.ax * torad)) := by
  unfold L; rw [ma0_id, ma1_id, ma2_id, ma3_id]; ring

/-! ### Theorems about the claims -/

/-- Claim C6: In `transform`, over exact real arithmetic, the argument of the
square root defining `D` equals `(J-K)^2 + 4*L^2`, and the quantities
`l1 = JK + D/2` and `l2 = JK - D/2` are exactly the two eigenvalues of the
symmetric matrix `S = ma * transpose(ma) = [[J,L],[L,K]]`: their sum is the
trace `J + K`, their product is the determinant `J*K - L^2`, and their
difference is `D`. -/
theorem discriminant_eigenvalue_identity (e : Ellipse) (m0 m1 m2 m3 : ℝ) :
    Dsq e m0 m1 m2 m3 =
        (J e m0 m1 m2 m3 - K e m0 m1 m2 m3) ^ 2 + 4 * L e m0 m1 m2 m3 ^ 2 ∧
      l1 e m0 m1 m2 m3 + l2 e m0 m1 m2 m3 = J e m0 m1 m2 m3 + K e m0 m1 m2 m3 ∧
      l1 e m0 m1 m2 m3 * l2 e m0 m1 m2 m3 =
        J e m0 m1 m2 m3 * K e m0 m1 m2 m3 - L e m0 m1 m2 m3 ^ 2 ∧
      l1 e m0 m1 m2 m3 - l2 e m0 m1 m2 m3 = D e m0 m1 m2 m3 := by
  have h1 : Dsq e m0 m1 m2 m3 =
      (J e m0 m1 m2 m3 - K e m0 m1 m2 m3) ^ 2 + 4 * L e m0 m1 m2 m3 ^ 2 := by
    simp only [Dsq, J, K, L]
    ring
  have hD2 : D e m0 m1 m2 m3 ^ 2 = Dsq e m0 m1 m2 m3 :=
    Real.sq_sqrt (Dsq_nonneg e m0 m1 m2 m3)
  refine ⟨h1, ?_, ?_, ?_⟩
  · simp only [l1, l2, JK]; ring
  · simp only [l1, l2, JK]
    linear_combination (-1 / 4 : ℝ) * hD2 + (-1 / 4 : ℝ) * h1
  · simp only [l1, l2]; ring

/-- Claim C8: `transform` and `normalise` are modelled as state transformers on
the same `Ellipse` value (the receiver), and neither changes the `epsilon`
field. -/
theorem epsilon_preserved (e : Ellipse) (m0 m1 m2 m3 dx dy : ℝ) :
    (transform e m0 m1 m2 m3).epsilon = e.epsilon ∧
      (normalise e dx dy).epsilon = e.epsilon := by
  constructor
  · unfold transform
    split_ifs <;> rfl
  · unfold normalise
    split_ifs <;> simp [canonical_epsilon]

/-- Claim C9: Over exact real arithmetic, every square root taken inside
`transform` has a non-negative argument: `J >= 0`, `K >= 0`, the mean
`JK >= 0`, the argument of the square root in `D` is `>= 0`, and the smaller
eigenvalue `l2 = JK - D/2` is `>= 0` because `D <= J + K`. -/
theorem transform_sqrt_args_nonneg (e : Ellipse) (m0 m1 m2 m3 : ℝ) :
    0 ≤ J e m0 m1 m2 m3 ∧ 0 ≤ K e m0 m1 m2 m3 ∧ 0 ≤ JK e m0 m1 m2 m3 ∧
      0 ≤ Dsq e m0 m1 m2 m3 ∧
      D e m0 m1 m2 m3 ≤ J e m0 m1 m2 m3 + K e m0 m1 m2 m3 ∧
      0 ≤ l2 e m0 m1 m2 m3 := by
  have hJ := J_nonneg e m0 m1 m2 m3
  have hK := K_nonneg e m0 m1 m2 m3
  have hD := D_le_J_add_K e m0 m1 m2 m3
  refine ⟨hJ, hK, ?_, Dsq_nonneg e m0 m1 m2 m3, hD, ?_⟩
  · unfold JK; linarith
  · unfold l2 JK; linarith

/-- Claim C4: After `transform`: both radii are non-negative; when the
near-circle branch is taken (`D <= epsilon`) the angle is zero and the radii
are equal exactly; otherwise the resulting angle lies in `[0, 90)` degrees. -/
theorem transform_range_invariants (e : Ellipse) (m0 m1 m2 m3 : ℝ) :
    0 ≤ (transform e m0 m1 m2 m3).rx ∧ 0 ≤ (transform e m0 m1 m2 m3).ry ∧
      (D e m0 m1 m2 m3 ≤ e.epsilon →
        (transform e m0 m1 m2 m3).ax = 0 ∧
          (transform e m0 m1 m2 m3).rx = (transform e m0 m1 m2 m3).ry) ∧
      (¬(D e m0 m1 m2 m3 ≤ e.epsilon) →
        0 ≤ (transform e m0 m1 m2 m3).ax ∧ (transform e m0 m1 m2 m3).ax < 90) := by
  have hlt := axGeneral_lt_ninety e m0 m1 m2 m3
  have hgt := neg_ninety_lt_axGeneral e m0 m1 m2 m3
  unfold transform
  split_ifs with h1 h2 h3 h4
  · exact ⟨Real.sqrt_nonneg _, Real.sqrt_nonneg _,
      fun _ => ⟨rfl, rfl⟩, fun hn => absurd h1 hn⟩
  · exact ⟨Real.sqrt_nonneg _, Real.sqrt_nonneg _,
      fun hD => absurd hD h1, fun _ => by norm_num⟩
  · exact ⟨Real.sqrt_nonneg _, Real.sqrt_nonneg _,
      fun hD => absurd hD h1, fun _ => by norm_num⟩
  · exact ⟨Real.sqrt_nonneg _, Real.sqrt_nonneg _,
      fun hD => absurd hD h1, fun _ => ⟨h4, hlt⟩⟩
  · refine ⟨Real.sqrt_nonneg _, Real.sqrt_nonneg _,
      fun hD => absurd hD h1, fun _ => ⟨?_, ?_⟩⟩
    · show (0 : ℝ) ≤ axGeneral e m0 m1 m2 m3 + 90
      linarith
    · show axGeneral e m0 m1 m2 m3 + 90 < 90
      push_neg at h4
      linarith

/-- Claim C7: `normalise` with a zero vector is idempotent: calling it twice
yields exactly the same ellipse as calling it once. -/
theorem normalise_idempotent (e : Ellipse) :
    normalise (normalise e 0 0) 0 0 = normalise e 0 0 := by
  rw [normalise_zero_vec, normalise_zero_vec, canonical_idem]

/-- Claim C10, counterexample: The claim quantifies over every ellipse, but on
the degenerate ellipse `(3, 0, 0)` with vector `(0, 2)` the scaling step
divides by the canonicalised `ry = 0`: the source computes `k = Infinity` and
the scaled radii become NaN, so the monotonicity `ry >= ry0` fails in the
program (NaN comparisons are false). -/
theorem normalise_scale_div_by_zero :
    normaliseDivisionByZero (Ellipse.mk 3 0 0 (1 / 10)) 0 2 := by
  refine ⟨by norm_num, Or.inr ?_⟩
  have hcan : canonical (Ellipse.mk 3 0 0 (1 / 10)) = Ellipse.mk 3 0 0 (1 / 10) := by
    simp only [canonical]
    norm_num [canonAx_zero, Ellipse.mk.injEq]
  rw [hcan]

/-- Claim C10, amended: For a non-degenerate ellipse (`rx ≠ 0` and `ry ≠ 0`,
so the divisions defining `k` are by non-zero canonicalised radii), the
scaling step of `normalise` never shrinks the ellipse: with a non-zero vector,
the final radii are at least the canonicalised radii, both radii are
multiplied by the same factor `k` exactly when `k > 1`, and they are left
unchanged when `k <= 1`. -/
theorem normalise_scale_monotone (e : Ellipse) (dx dy : ℝ) (hv : ¬(dx = 0 ∧ dy = 0))
    (hrx : e.rx ≠ 0) (hry : e.ry ≠ 0) :
    (canonical e).rx ≤ (normalise e dx dy).rx ∧
      (canonical e).ry ≤ (normalise e dx dy).ry ∧
      (1 < kFactor (canonical e) dx dy →
        (normalise e dx dy).rx = (canonical e).rx * kFactor (canonical e) dx dy ∧
          (normalise e dx dy).ry = (canonical e).ry * kFactor (canonical e) dx dy) ∧
      (kFactor (canonical e) dx dy ≤ 1 →
        (normalise e dx dy).rx = (canonical e).rx ∧
          (normalise e dx dy).ry = (canonical e).ry) := by
  rcases normalise_cases_vec e dx dy hv with ⟨hk, h⟩ | ⟨hk, h⟩ <;> rw [h]
  · exact ⟨le_refl _, le_refl _, fun hgt => absurd hgt (not_lt.mpr hk), fun _ => ⟨rfl, rfl⟩⟩
  · refine ⟨?_, ?_, fun _ => ⟨rfl, rfl⟩, fun hle => absurd hk (not_lt.mpr hle)⟩
    · exact le_mul_of_one_le_right (canonical_rx_nonneg e) hk.le
    · exact le_mul_of_one_le_right (canonical_ry_nonneg e) hk.le

/-- Claim C1, counterexample: The claim quantifies over every ellipse, but on
the degenerate ellipse `(0, 4, 0)` with vector `(1, 0)` the scaling step
divides by the canonicalised `rx = 0`: the source computes `k = Infinity`,
the scaled `rx` becomes NaN, and the recomputed `k` is NaN, so the containment
bound `k <= 1 + epsilon` fails in the program. -/
theorem normalise_contains_vector_div_by_zero :
    normaliseDivisionByZero (Ellipse.mk 0 4 0 (1 / 10)) 1 0 := by
  refine ⟨by norm_num, Or.inl ?_⟩
  have hcan : canonical (Ellipse.mk 0 4 0 (1 / 10)) = Ellipse.mk 0 4 0 (1 / 10) := by
    simp only [canonical]
    norm_num [canonAx_zero, Ellipse.mk.injEq]
  rw [hcan]

/-- Claim C1, amended: After `normalise(dx, dy)` on a non-degenerate ellipse
(`rx ≠ 0` and `ry ≠ 0`, so the divisions defining `k` are by non-zero
canonicalised radii) with a non-zero vector and a non-negative tolerance, the
point `(dx, dy)` lies on or inside the resulting ellipse: recomputing the
scale factor `k` from the final `(rx, ry, ax)` by the formula of lines 144-147
yields `k <= 1 + epsilon`. -/
theorem normalise_contains_vector (e : Ellipse) (dx dy : ℝ)
    (hε : 0 ≤ e.epsilon) (hv : ¬(dx = 0 ∧ dy = 0))
    (hrx : e.rx ≠ 0) (hry : e.ry ≠ 0) :
    kFactor (normalise e dx dy) dx dy ≤ 1 + e.epsilon := by
  rcases normalise_cases_vec e dx dy hv with ⟨hk, h⟩ | ⟨hk, h⟩ <;> rw [h]
  · linarith
  · rw [kFactor_scaled (canonical e) dx dy _ (by linarith),
      div_self (by linarith : kFactor (canonical e) dx dy ≠ 0)]
    linarith

/-- Witness for `normalise_contains_vector` at the concrete example of the spec
`Ellipse(5, 3, 0).normalize(10, 0)` with tolerance 1. -/
theorem normalise_contains_vector_check :
    0 ≤ (Ellipse.mk 5 3 0 1).epsilon ∧ ¬((10 : ℝ) = 0 ∧ (0 : ℝ) = 0) ∧
      (Ellipse.mk 5 3 0 1).rx ≠ 0 ∧ (Ellipse.mk 5 3 0 1).ry ≠ 0 ∧
      kFactor (normalise (Ellipse.mk 5 3 0 1) 10 0) 10 0 ≤
        1 + (Ellipse.mk 5 3 0 1).epsilon :=
  ⟨by norm_num, by norm_num, by norm_num, by norm_num,
    normalise_contains_vector (Ellipse.mk 5 3 0 1) 10 0 (by norm_num) (by norm_num)
      (by norm_num) (by norm_num)⟩

/-- Witness for `normalise_scale_monotone` at the same concrete input. -/
theorem normalise_scale_monotone_check :
    ¬((10 : ℝ) = 0 ∧ (0 : ℝ) = 0) ∧
      (Ellipse.mk 5 3 0 1).rx ≠ 0 ∧ (Ellipse.mk 5 3 0 1).ry ≠ 0 ∧
      ((canonical (Ellipse.mk 5 3 0 1)).rx ≤ (normalise (Ellipse.mk 5 3 0 1) 10 0).rx ∧
        (canonical (Ellipse.mk 5 3 0 1)).ry ≤ (normalise (Ellipse.mk 5 3 0 1) 10 0).ry ∧
        (1 < kFactor (canonical (Ellipse.mk 5 3 0 1)) 10 0 →
          (normalise (Ellipse.mk 5 3 0 1) 10 0).rx =
              (canonical (Ellipse.mk 5 3 0 1)).rx *
                kFactor (canonical (Ellipse.mk 5 3 0 1)) 10 0 ∧
            (normalise (Ellipse.mk 5 3 0 1) 10 0).ry =
              (canonical (Ellipse.mk 5 3 0 1)).ry *
                kFactor (canonical (Ellipse.mk 5 3 0 1)) 10 0) ∧
        (kFactor (canonical (Ellipse.mk 5 3 0 1)) 10 0 ≤ 1 →
          (normalise (Ellipse.mk 5 3 0 1) 10 0).rx = (canonical (Ellipse.mk 5 3 0 1)).rx ∧
            (normalise (Ellipse.mk 5 3 0 1) 10 0).ry = (canonical (Ellipse.mk 5 3 0 1)).ry)) :=
  ⟨by norm_num, by norm_num, by norm_num,
    normalise_scale_monotone (Ellipse.mk 5 3 0 1) 10 0 (by norm_num) (by norm_num)
      (by norm_num)⟩

/-- Claim C5, counterexample: Two failures of the claim at concrete inputs.
First, when the canonicalised radii are within epsilon the claim says the
result has `rx = ry = (|rx|+|ry|)/2`; but with the circle `(1, 1, 0)`,
tolerance `1/10`, and vector `(10, 0)`, the scaling step multiplies the mean
by `k = 10`, so the final `rx` is 10, not 1.  Second, the claim asserts
`rx, ry >= 0` for every ellipse, but on the degenerate ellipse `(0, 6, 0)`
with vector `(1, 0)` the scaling step divides by the canonicalised `rx = 0`:
the source yields `rx = 0 * Infinity = NaN`, for which `rx >= 0` is false. -/
theorem normalise_circle_mean_counterexample :
    (abs (|(1 : ℝ)| - |(1 : ℝ)|) ≤ (1 / 10 : ℝ) ∧
      (normalise (Ellipse.mk 1 1 0 (1 / 10)) 10 0).rx ≠ (|(1 : ℝ)| + |(1 : ℝ)|) / 2) ∧
      normaliseDivisionByZero (Ellipse.mk 0 6 0 (1 / 10)) 1 0 := by
  constructor
  · have hcan : canonical (Ellipse.mk 1 1 0 (1 / 10)) = Ellipse.mk 1 1 0 (1 / 10) := by
      unfold canonical
      rw [if_pos (by norm_num)]
      ext <;> norm_num
    have hk : kFactor (Ellipse.mk 1 1 0 (1 / 10)) 10 0 = 10 := by
      unfold kFactor ndx ndy
      norm_num
      rw [show (100 : ℝ) = 10 ^ 2 by norm_num]
      exact Real.sqrt_sq (by norm_num)
    have h : normalise (Ellipse.mk 1 1 0 (1 / 10)) 10 0 = Ellipse.mk 10 10 0 (1 / 10) := by
      unfold normalise
      rw [if_neg (by norm_num), hcan, hk, if_pos (by norm_num : (1 : ℝ) < 10)]
      ext <;> norm_num
    rw [h]
    norm_num
  · refine ⟨by norm_num, Or.inl ?_⟩
    have hcan : canonical (Ellipse.mk 0 6 0 (1 / 10)) = Ellipse.mk 0 6 0 (1 / 10) := by
      simp only [canonical]
      norm_num [canonAx_zero, Ellipse.mk.injEq]
    rw [hcan]

/-- Claim C5, amended: After `normalise(dx, dy)` on a non-degenerate ellipse
(`rx ≠ 0` and `ry ≠ 0`, so the divisions of the scaling step are by non-zero
canonicalised radii): both radii are non-negative; when the canonicalised
radii are within epsilon the result is a circle with `ax = 0` and `rx = ry`
equal to the mean `(|rx|+|ry|)/2` times a scale factor `k >= 1` (`k = 1` when
no scaling occurred); otherwise the resulting `ax` lies in `[0, 90)`
degrees. -/
theorem normalise_range_invariants (e : Ellipse) (dx dy : ℝ)
    (hrx : e.rx ≠ 0) (hry : e.ry ≠ 0) :
    0 ≤ (normalise e dx dy).rx ∧ 0 ≤ (normalise e dx dy).ry ∧
      (abs (|e.rx| - |e.ry|) ≤ e.epsilon →
        (normalise e dx dy).ax = 0 ∧
          (normalise e dx dy).rx = (normalise e dx dy).ry ∧
          ∃ k, 1 ≤ k ∧ (normalise e dx dy).rx = k * ((|e.rx| + |e.ry|) / 2)) ∧
      (¬abs (|e.rx| - |e.ry|) ≤ e.epsilon →
        0 ≤ (normalise e dx dy).ax ∧ (normalise e dx dy).ax < 90) := by
  have hcan : ∀ h : abs (|e.rx| - |e.ry|) ≤ e.epsilon,
      canonical e = Ellipse.mk ((|e.rx| + |e.ry|) / 2) ((|e.rx| + |e.ry|) / 2) 0 e.epsilon :=
    fun h => by unfold canonical; rw [if_pos h]
  rcases normalise_cases e dx dy with h | ⟨hk, h⟩ <;> rw [h]
  · refine ⟨canonical_rx_nonneg e, canonical_ry_nonneg e, fun hcc => ?_,
      fun _ => ⟨canonical_ax_nonneg e, canonical_ax_lt e⟩⟩
    rw [hcan hcc]
    exact ⟨rfl, rfl, 1, le_refl 1, (one_mul _).symm⟩
  · refine ⟨mul_nonneg (canonical_rx_nonneg e) (kFactor_nonneg _ _ _),
      mul_nonneg (canonical_ry_nonneg e) (kFactor_nonneg _ _ _), fun hcc => ?_,
      fun _ => ⟨canonical_ax_nonneg e, canonical_ax_lt e⟩⟩
    rw [hcan hcc] at hk ⊢
    exact ⟨rfl, rfl, kFactor
        (Ellipse.mk ((|e.rx| + |e.ry|) / 2) ((|e.rx| + |e.ry|) / 2) 0 e.epsilon) dx dy,
      hk.le, mul_comm _ _⟩

/-- Witness for `normalise_range_invariants` at the non-degenerate ellipse
`(5, 3, 0)` with tolerance 1 and vector `(10, 0)`. -/
theorem normalise_range_invariants_check :
    (Ellipse.mk 5 3 0 1).rx ≠ 0 ∧ (Ellipse.mk 5 3 0 1).ry ≠ 0 ∧
      (0 ≤ (normalise (Ellipse.mk 5 3 0 1) 10 0).rx ∧
        0 ≤ (normalise (Ellipse.mk 5 3 0 1) 10 0).ry ∧
        (abs (|(Ellipse.mk 5 3 0 1).rx| - |(Ellipse.mk 5 3 0 1).ry|) ≤
            (Ellipse.mk 5 3 0 1).epsilon →
          (normalise (Ellipse.mk 5 3 0 1) 10 0).ax = 0 ∧
            (normalise (Ellipse.mk 5 3 0 1) 10 0).rx =
              (normalise (Ellipse.mk 5 3 0 1) 10 0).ry ∧
            ∃ k, 1 ≤ k ∧ (normalise (Ellipse.mk 5 3 0 1) 10 0).rx =
              k * ((|(Ellipse.mk 5 3 0 1).rx| + |(Ellipse.mk 5 3 0 1).ry|) / 2)) ∧
        (¬abs (|(Ellipse.mk 5 3 0 1).rx| - |(Ellipse.mk 5 3 0 1).ry|) ≤
            (Ellipse.mk 5 3 0 1).epsilon →
          0 ≤ (normalise (Ellipse.mk 5 3 0 1) 10 0).ax ∧
            (normalise (Ellipse.mk 5 3 0 1) 10 0).ax < 90)) :=
  ⟨by norm_num, by norm_num,
    normalise_range_invariants (Ellipse.mk 5 3 0 1) 10 0 (by norm_num) (by norm_num)⟩

/-- Claim C3, counterexample: The claim says the divisions by `rx` and `ry` in
`normalise` are never divisions by zero, but the degenerate ellipse
`(0, 5, 0)` with vector `(1, 0)` reaches the scaling step with a
canonicalised `rx` equal to zero. -/
theorem normalise_division_by_zero_example :
    normaliseDivisionByZero (Ellipse.mk 0 5 0 (1 / 10)) 1 0 := by
  refine ⟨by norm_num, Or.inl ?_⟩
  have hax : canonAx (0 : ℝ) = 0 := canonAx_eq_self (le_refl 0) (by norm_num)
  have hcan : canonical (Ellipse.mk 0 5 0 (1 / 10)) = Ellipse.mk 0 5 0 (1 / 10) := by
    simp only [canonical]
    norm_num [hax, Ellipse.mk.injEq]
  rw [hcan]

/-- Claim C3, amended: The division in the angle formula of `transform` is
structurally guarded: when the general branch is reached with a non-negative
tolerance, the chosen denominator is non-zero (the epsilon-gated sub-case has
been excluded and the larger-magnitude denominator is selected).  The
divisions by the radii in the scaling step of `normalise` are non-zero provided the
ellipse is non-degenerate (`rx ≠ 0` and `ry ≠ 0`). -/
theorem division_guards :
    (∀ (e : Ellipse) (m0 m1 m2 m3 : ℝ), 0 ≤ e.epsilon →
        generalBranch e m0 m1 m2 m3 → angleDenom e m0 m1 m2 m3 ≠ 0) ∧
      ∀ e : Ellipse, e.rx ≠ 0 → e.ry ≠ 0 →
        (canonical e).rx ≠ 0 ∧ (canonical e).ry ≠ 0 := by
  constructor
  · rintro e m0 m1 m2 m3 hε ⟨-, -, h3⟩
    rcases not_and_or.mp h3 with h | h <;> push_neg at h <;>
      unfold angleDenom <;> split_ifs with hcmp
    · exact abs_pos.mp (lt_of_le_of_lt hε h)
    · exact abs_pos.mp (lt_of_le_of_lt hε (lt_of_lt_of_le h (le_of_not_lt hcmp)))
    · exact abs_pos.mp (lt_of_le_of_lt hε (lt_trans h hcmp))
    · exact abs_pos.mp (lt_of_le_of_lt hε h)
  · intro e hrx hry
    have h1 : 0 < |e.rx| := abs_pos.mpr hrx
    have h2 : 0 < |e.ry| := abs_pos.mpr hry
    unfold canonical
    split_ifs <;> dsimp <;> constructor
    · exact ne_of_gt (by linarith)
    · exact ne_of_gt (by linarith)
    · exact ne_of_gt h2
    · exact ne_of_gt h1
    · exact ne_of_gt h1
    · exact ne_of_gt h2

/-- Witness for `division_guards`: the shear `[1,1,0,1]` applied to the unit
circle reaches the general branch of `transform`, where the chosen denominator
is non-zero; and the non-degenerate ellipse `(1, 5, 0)` keeps both
canonicalised radii non-zero. -/
theorem division_guards_check :
    (0 : ℝ) ≤ (Ellipse.mk 1 1 0 (1 / 10)).epsilon ∧
      generalBranch (Ellipse.mk 1 1 0 (1 / 10)) 1 1 0 1 ∧
      angleDenom (Ellipse.mk 1 1 0 (1 / 10)) 1 1 0 1 ≠ 0 ∧
      (canonical (Ellipse.mk 1 5 0 (1 / 10))).rx ≠ 0 ∧
      (canonical (Ellipse.mk 1 5 0 (1 / 10))).ry ≠ 0 := by
  have hma0 : ma0 (Ellipse.mk 1 1 0 (1 / 10)) 1 1 0 1 = 1 := by
    unfold ma0; norm_num
  have hma1 : ma1 (Ellipse.mk 1 1 0 (1 / 10)) 1 1 0 1 = 1 := by
    unfold ma1; norm_num
  have hma2 : ma2 (Ellipse.mk 1 1 0 (1 / 10)) 1 1 0 1 = 0 := by
    unfold ma2; norm_num
  have hma3 : ma3 (Ellipse.mk 1 1 0 (1 / 10)) 1 1 0 1 = 1 := by
    unfold ma3; norm_num
  have hDsq : Dsq (Ellipse.mk 1 1 0 (1 / 10)) 1 1 0 1 = 5 := by
    unfold Dsq; rw [hma0, hma1, hma2, hma3]; norm_num
  have hD : D (Ellipse.mk 1 1 0 (1 / 10)) 1 1 0 1 = Real.sqrt 5 := by
    rw [D, hDsq]
  have hJ : J (Ellipse.mk 1 1 0 (1 / 10)) 1 1 0 1 = 1 := by
    unfold J; rw [hma0, hma2]; norm_num
  have hK : K (Ellipse.mk 1 1 0 (1 / 10)) 1 1 0 1 = 2 := by
    unfold K; rw [hma1, hma3]; norm_num
  have hL : L (Ellipse.mk 1 1 0 (1 / 10)) 1 1 0 1 = 1 := by
    unfold L; rw [hma0, hma1, hma2, hma3]; norm_num
  have hs5 : (11 / 10 : ℝ) < Real.sqrt 5 :=
    (Real.lt_sqrt (by norm_num)).mpr (by norm_num)
  have hgb : generalBranch (Ellipse.mk 1 1 0 (1 / 10)) 1 1 0 1 := by
    refine ⟨?_, ?_, ?_⟩
    · rw [hD]
      exact not_le.mpr (lt_trans (by norm_num) hs5)
    · rw [hD, hJ, hK]
      rw [show |(1 : ℝ) - 2| = 1 by norm_num,
        abs_of_pos (show (0 : ℝ) < Real.sqrt 5 - 1 by linarith)]
      exact not_le.mpr (by linarith)
    · rintro ⟨h1, -⟩
      rw [hL] at h1
      norm_num at h1
  refine ⟨by norm_num, hgb,
    division_guards.1 (Ellipse.mk 1 1 0 (1 / 10)) 1 1 0 1 (by norm_num) hgb, ?_, ?_⟩
  · exact (division_guards.2 (Ellipse.mk 1 5 0 (1 / 10)) (by norm_num) (by norm_num)).1
  · exact (division_guards.2 (Ellipse.mk 1 5 0 (1 / 10)) (by norm_num) (by norm_num)).2

/-- Claim C2, counterexample: The identity transform does not leave
`(rx,ry,ax)` numerically unchanged within epsilon for every ellipse: on the
circle `(1, 1, 45)` with tolerance `1/10` the near-circle branch fires and
resets the angle from 45 to 0, a change of 45 degrees, which exceeds
epsilon. -/
theorem transform_id_circle_counterexample :
    abs ((transform (Ellipse.mk 1 1 45 (1 / 10)) 1 0 0 1).ax -
        (Ellipse.mk 1 1 45 (1 / 10)).ax) >
      (Ellipse.mk 1 1 45 (1 / 10)).epsilon := by
  have hD : D (Ellipse.mk 1 1 45 (1 / 10)) 1 0 0 1 = 0 := by
    rw [D, Dsq_id]
    norm_num
  unfold transform
  rw [if_pos (show D (Ellipse.mk 1 1 45 (1 / 10)) 1 0 0 1 ≤
    (Ellipse.mk 1 1 45 (1 / 10)).epsilon by rw [hD]; norm_num)]
  rw [show ((Ellipse.mk (Real.sqrt (JK (Ellipse.mk 1 1 45 (1 / 10)) 1 0 0 1))
      (Real.sqrt (JK (Ellipse.mk 1 1 45 (1 / 10)) 1 0 0 1)) 0
      (Ellipse.mk 1 1 45 (1 / 10)).epsilon).ax -
      (Ellipse.mk 1 1 45 (1 / 10)).ax : ℝ) = -45 by norm_num, abs_neg,
    abs_of_nonneg (by norm_num : (0 : ℝ) ≤ 45)]
  norm_num

/-- Claim C2, amended: Over exact real arithmetic, the identity transform is a
fixed point of `transform` on every ellipse in canonical form (positive radii,
angle in `[0,90)`, angle 0 for a circle) when the tolerance is zero, i.e. when
none of the epsilon-gated branches can blur the data: `transform([1,0,0,1])`
returns exactly the same `(rx, ry, ax)`. -/
theorem transform_id_fixes_canonical (e : Ellipse) (hε : e.epsilon = 0)
    (hrx : 0 < e.rx) (hry : 0 < e.ry) (hax0 : 0 ≤ e.ax) (hax90 : e.ax < 90)
    (hcirc : e.rx = e.ry → e.ax = 0) :
    transform e 1 0 0 1 = e := by
  have hπ := Real.pi_pos
  have ht := torad_pos
  have hθ0 : 0 ≤ e.ax * torad := mul_nonneg hax0 ht.le
  have hθlt : e.ax * torad < Real.pi / 2 := by
    calc e.ax * torad < 90 * torad := mul_lt_mul_of_pos_right hax90 ht
      _ = Real.pi / 2 := by unfold torad; ring
  have hc : 0 < Real.cos (e.ax * torad) :=
    Real.cos_pos_of_mem_Ioo ⟨by linarith, hθlt⟩
  have hcs : Real.sin (e.ax * torad) ^ 2 + Real.cos (e.ax * torad) ^ 2 = 1 :=
    Real.sin_sq_add_cos_sq _
  by_cases hax : e.ax = 0
  · -- axis-aligned input
    have hc1 : Real.cos (e.ax * torad) = 1 := by rw [hax, zero_mul, Real.cos_zero]
    have hs0 : Real.sin (e.ax * torad) = 0 := by rw [hax, zero_mul, Real.sin_zero]
    by_cases hr : e.rx = e.ry
    · -- circle: the near-circle branch reproduces the radii and the zero angle
      have hDz : D e 1 0 0 1 = 0 := by
        rw [D_id2, hr, sub_self, abs_zero]
      have hJK : JK e 1 0 0 1 = e.ry ^ 2 := by
        unfold JK
        rw [J_id, K_id, hr]
        linear_combination e.ry ^ 2 * hcs
      unfold transform
      rw [if_pos (show D e 1 0 0 1 ≤ e.epsilon by rw [hDz, hε])]
      ext <;> dsimp
      · rw [hJK, Real.sqrt_sq hry.le, hr]
      · rw [hJK, Real.sqrt_sq hry.le]
      · exact hax.symm
    · -- proper axis-aligned ellipse: the near-diagonal branch reproduces it
      have hsqne : e.rx ^ 2 - e.ry ^ 2 ≠ 0 := by
        rw [show e.rx ^ 2 - e.ry ^ 2 = (e.rx - e.ry) * (e.rx + e.ry) by ring]
        exact mul_ne_zero (sub_ne_zero.mpr hr) (ne_of_gt (by linarith))
      have hDpos : 0 < D e 1 0 0 1 := by
        rw [D_id2]; exact abs_pos.mpr hsqne
      have hJmK : J e 1 0 0 1 - K e 1 0 0 1 = e.rx ^ 2 - e.ry ^ 2 := by
        rw [J_id, K_id, hc1, hs0]; ring
      have hcond2 : abs (D e 1 0 0 1 - |J e 1 0 0 1 - K e 1 0 0 1|) ≤ e.epsilon := by
        rw [hε, D_id2, hJmK, sub_self, abs_zero]
      unfold transform
      rw [if_neg (by rw [hε]; exact not_le.mpr hDpos), if_pos hcond2]
      ext <;> dsimp
      · rw [J_id, hc1, hs0,
          show e.rx ^ 2 * 1 ^ 2 + e.ry ^ 2 * 0 ^ 2 = e.rx ^ 2 by ring,
          Real.sqrt_sq hrx.le]
      · rw [K_id, hc1, hs0,
          show e.rx ^ 2 * 0 ^ 2 + e.ry ^ 2 * 1 ^ 2 = e.ry ^ 2 by ring,
          Real.sqrt_sq hry.le]
      · exact hax.symm
  · -- genuinely rotated input: the general branch recovers the data exactly
    have hap : 0 < e.ax := lt_of_le_of_ne hax0 (Ne.symm hax)
    have hθp : 0 < e.ax * torad := mul_pos hap ht
    have hr : e.rx ≠ e.ry := fun h => hax (hcirc h)
    have hs : 0 < Real.sin (e.ax * torad) :=
      Real.sin_pos_of_pos_of_lt_pi hθp (by linarith)
    have hsqne : e.rx ^ 2 - e.ry ^ 2 ≠ 0 := by
      rw [show e.rx ^ 2 - e.ry ^ 2 = (e.rx - e.ry) * (e.rx + e.ry) by ring]
      exact mul_ne_zero (sub_ne_zero.mpr hr) (ne_of_gt (by linarith))
    have hx2 : 0 < |e.rx ^ 2 - e.ry ^ 2| := abs_pos.mpr hsqne
    have hDpos : 0 < D e 1 0 0 1 := by rw [D_id2]; exact hx2
    have hcond1 : ¬(D e 1 0 0 1 ≤ e.epsilon) := by
      rw [hε]; exact not_le.mpr hDpos
    have hJmK2 : J e 1 0 0 1 - K e 1 0 0 1 =
        (e.rx ^ 2 - e.ry ^ 2) *
          (Real.cos (e.ax * torad) ^ 2 - Real.sin (e.ax * torad) ^ 2) := by
      rw [J_id, K_id]; ring
    have habs2 : |Real.cos (e.ax * torad) ^ 2 - Real.sin (e.ax * torad) ^ 2| < 1 := by
      rw [abs_lt]
      constructor <;> nlinarith [mul_pos hc hc, mul_pos hs hs, hcs]
    have hDmJK : 0 < D e 1 0 0 1 - |J e 1 0 0 1 - K e 1 0 0 1| := by
      rw [D_id2, hJmK2, abs_mul]
      have h1 := (mul_lt_mul_left hx2).mpr habs2
      linarith
    have hcond2 : ¬(abs (D e 1 0 0 1 - |J e 1 0 0 1 - K e 1 0 0 1|) ≤ e.epsilon) := by
      rw [hε]
      exact not_le.mpr (abs_pos.mpr (ne_of_gt hDmJK))
    have hLne : L e 1 0 0 1 ≠ 0 := by
      rw [L_id]
      exact mul_ne_zero hsqne (mul_ne_zero hc.ne' hs.ne')
    have hcond3 : ¬(|L e 1 0 0 1| ≤ e.epsilon ∧
        |l1 e 1 0 0 1 - K e 1 0 0 1| ≤ e.epsilon) := by
      rintro ⟨h1, -⟩
      rw [hε] at h1
      exact hLne (abs_eq_zero.mp (le_antisymm h1 (abs_nonneg _)))
    rcases lt_or_gt_of_ne hr with hlt | hgt
    · -- rx < ry: the computed angle is negative and the axes get re-exchanged
      have hsq2 : e.ry ^ 2 - e.rx ^ 2 ≠ 0 := ne_of_gt (by nlinarith)
      have hDval : D e 1 0 0 1 = e.ry ^ 2 - e.rx ^ 2 := by
        rw [D_id2, abs_of_neg (show e.rx ^ 2 - e.ry ^ 2 < 0 by nlinarith)]
        ring
      have hl1 : l1 e 1 0 0 1 = e.ry ^ 2 := by
        unfold l1 JK
        rw [J_id, K_id, hDval]
        linear_combination ((e.rx ^ 2 + e.ry ^ 2) / 2) * hcs
      have hl2 : l2 e 1 0 0 1 = e.rx ^ 2 := by
        unfold l2 JK
        rw [J_id, K_id, hDval]
        linear_combination ((e.rx ^ 2 + e.ry ^ 2) / 2) * hcs
      have hl1K : l1 e 1 0 0 1 - K e 1 0 0 1 =
          (e.ry ^ 2 - e.rx ^ 2) * Real.sin (e.ax * torad) ^ 2 := by
        rw [hl1, K_id]
        linear_combination (-e.ry ^ 2) * hcs
      have hl1J : l1 e 1 0 0 1 - J e 1 0 0 1 =
          (e.ry ^ 2 - e.rx ^ 2) * Real.cos (e.ax * torad) ^ 2 := by
        rw [hl1, J_id]
        linear_combination (-e.ry ^ 2) * hcs
      have hArg : angleArg e 1 0 0 1 =
          -(Real.cos (e.ax * torad) / Real.sin (e.ax * torad)) := by
        unfold angleArg
        split_ifs with hcmp
        · rw [hl1J, L_id,
            show (e.rx ^ 2 - e.ry ^ 2) *
                (Real.cos (e.ax * torad) * Real.sin (e.ax * torad)) =
              -((e.ry ^ 2 - e.rx ^ 2) *
                (Real.cos (e.ax * torad) * Real.sin (e.ax * torad))) by ring,
            div_neg, mul_div_mul_left _ _ hsq2, sq, mul_div_mul_left _ _ hc.ne']
        · rw [L_id, hl1K,
            show (e.rx ^ 2 - e.ry ^ 2) *
                (Real.cos (e.ax * torad) * Real.sin (e.ax * torad)) =
              -((e.ry ^ 2 - e.rx ^ 2) *
                (Real.cos (e.ax * torad) * Real.sin (e.ax * torad))) by ring,
            neg_div, mul_div_mul_left _ _ hsq2, sq,
            mul_comm (Real.cos (e.ax * torad)) (Real.sin (e.ax * torad)),
            mul_div_mul_left _ _ hs.ne']
      have hatan : Real.arctan
          (-(Real.cos (e.ax * torad) / Real.sin (e.ax * torad))) =
          e.ax * torad - Real.pi / 2 := by
        have htan : Real.tan (e.ax * torad - Real.pi / 2) =
            -(Real.cos (e.ax * torad) / Real.sin (e.ax * torad)) := by
          rw [Real.tan_eq_sin_div_cos, Real.sin_sub_pi_div_two,
            Real.cos_sub_pi_div_two, neg_div]
        rw [← htan]
        exact Real.arctan_tan (by linarith) (by linarith)
      have haxG : axGeneral e 1 0 0 1 = e.ax - 90 := by
        unfold axGeneral
        rw [hArg, hatan, sub_div, mul_div_cancel_right₀ _ torad_ne_zero,
          (div_eq_iff torad_ne_zero).mpr (show Real.pi / 2 = 90 * torad by unfold torad; ring)]
      have hcond4 : ¬(0 ≤ axGeneral e 1 0 0 1) := by
        rw [haxG]
        exact not_le.mpr (by linarith)
      unfold transform
      rw [if_neg hcond1, if_neg hcond2, if_neg hcond3, if_neg hcond4]
      ext <;> dsimp
      · rw [hl2, Real.sqrt_sq hrx.le]
      · rw [hl1, Real.sqrt_sq hry.le]
      · rw [haxG]; ring
    · -- rx > ry: the computed angle is the original one
      have hDval : D e 1 0 0 1 = e.rx ^ 2 - e.ry ^ 2 := by
        rw [D_id2, abs_of_pos (show 0 < e.rx ^ 2 - e.ry ^ 2 by nlinarith)]
      have hl1 : l1 e 1 0 0 1 = e.rx ^ 2 := by
        unfold l1 JK
        rw [J_id, K_id, hDval]
        linear_combination ((e.rx ^ 2 + e.ry ^ 2) / 2) * hcs
      have hl2 : l2 e 1 0 0 1 = e.ry ^ 2 := by
        unfold l2 JK
        rw [J_id, K_id, hDval]
        linear_combination ((e.rx ^ 2 + e.ry ^ 2) / 2) * hcs
      have hl1K : l1 e 1 0 0 1 - K e 1 0 0 1 =
          (e.rx ^ 2 - e.ry ^ 2) * Real.cos (e.ax * torad) ^ 2 := by
        rw [hl1, K_id]
        linear_combination (-e.rx ^ 2) * hcs
      have hl1J : l1 e 1 0 0 1 - J e 1 0 0 1 =
          (e.rx ^ 2 - e.ry ^ 2) * Real.sin (e.ax * torad) ^ 2 := by
        rw [hl1, J_id]
        linear_combination (-e.rx ^ 2) * hcs
      have hArg : angleArg e 1 0 0 1 =
          Real.sin (e.ax * torad) / Real.cos (e.ax * torad) := by
        unfold angleArg
        split_ifs with hcmp
        · rw [hl1J, L_id, mul_div_mul_left _ _ hsqne, sq,
            mul_comm (Real.cos (e.ax * torad)) (Real.sin (e.ax * torad)),
            mul_div_mul_left _ _ hs.ne']
        · rw [L_id, hl1K, mul_div_mul_left _ _ hsqne, sq,
            mul_div_mul_left _ _ hc.ne']
      have hatan : Real.arctan
          (Real.sin (e.ax * torad) / Real.cos (e.ax * torad)) = e.ax * torad := by
        rw [← Real.tan_eq_sin_div_cos]
        exact Real.arctan_tan (by linarith) hθlt
      have haxG : axGeneral e 1 0 0 1 = e.ax := by
        unfold axGeneral
        rw [hArg, hatan, mul_div_cancel_right₀ _ torad_ne_zero]
      unfold transform
      rw [if_neg hcond1, if_neg hcond2, if_neg hcond3,
        if_pos (show 0 ≤ axGeneral e 1 0 0 1 by rw [haxG]; exact hax0)]
      ext <;> dsimp
      · rw [hl1, Real.sqrt_sq hrx.le]
      · rw [hl2, Real.sqrt_sq hry.le]
      · exact haxG

/-- Witness for `transform_id_fixes_canonical` at the canonical ellipse
`(2, 1, 45)` with tolerance 0. -/
theorem transform_id_fixes_canonical_check :
    (Ellipse.mk 2 1 45 0).epsilon = 0 ∧ 0 < (Ellipse.mk 2 1 45 0).rx ∧
      0 < (Ellipse.mk 2 1 45 0).ry ∧ 0 ≤ (Ellipse.mk 2 1 45 0).ax ∧
      (Ellipse.mk 2 1 45 0).ax < 90 ∧
      transform (Ellipse.mk 2 1 45 0) 1 0 0 1 = Ellipse.mk 2 1 45 0 :=
  ⟨rfl, by norm_num, by norm_num, by norm_num, by norm_num,
    transform_id_fixes_canonical (Ellipse.mk 2 1 45 0) rfl (by norm_num) (by norm_num)
      (by norm_num) (by norm_num) (by norm_num)⟩

end Ellipse

end

end SVGPathy
